import Mathlib

/-!
Shallow embedding of the heuristic lexical-analysis core of
`scripts/migration_cli.py`: the comment classifier
(`_compute_comment_lines`), the semantic-distance function
(`_effective_distance`), the greedy annotation pairer inside
`check_conditional_on_missing_bean`, the forbidden-import predicate
(`_is_forbidden_import`), the weighted score aggregation
(`PhaseResult.score`, `VerifyResult.overall_score`), the single-phase
runner guard (`ScorecardChecker.run_phase`) and the eager
dimension-method validation (`_validate_dimension_methods`).

Lines of text are modelled as `List Char`; Python string primitives
(`strip`, `startswith`, `in`, `find`, `count`) are given executable
counterparts on `List Char`.
-/

namespace MigrationCli

/-- Python `str.strip()`: drop whitespace from both ends. -/
def pyStrip (s : List Char) : List Char :=
  ((s.dropWhile Char.isWhitespace).reverse.dropWhile Char.isWhitespace).reverse

/-- Python `s.startswith(pat)` on char lists: `startsWithL pat s`. -/
def startsWithL : List Char → List Char → Bool
  | [], _ => true
  | _ :: _, [] => false
  | p :: ps, c :: cs => p == c && startsWithL ps cs

/-- Python `pat in s`: some suffix of `s` starts with `pat`. -/
def containsSub (pat : List Char) : List Char → Bool
  | [] => startsWithL pat []
  | c :: cs => startsWithL pat (c :: cs) || containsSub pat cs

/-- The characters of `s` strictly before the first occurrence of `pat`
(Python `s[:s.find(pat)]` when `pat in s`). -/
def takeUntilSub (pat : List Char) : List Char → List Char
  | [] => []
  | c :: cs => if startsWithL pat (c :: cs) then [] else c :: takeUntilSub pat cs

/-- Python `s.count(ch)` for a single character. -/
def countChar (ch : Char) : List Char → Nat
  | [] => 0
  | c :: cs => (if c == ch then 1 else 0) + countChar ch cs

/-- Python `s.count('\\"')`: non-overlapping occurrences of the
two-character sequence backslash-quote, scanned left to right. -/
def countEscQuote : List Char → Nat
  | '\\' :: '"' :: rest => 1 + countEscQuote rest
  | _ :: rest => countEscQuote rest
  | [] => 0

/-- The block-comment open token of the scanned language. -/
def openTok : List Char := ['/', '*']

/-- The block-comment close token. -/
def closeTok : List Char := ['*', '/']

/-- The full-line comment token. -/
def lineTok : List Char := ['/', '/']

/-- The Javadoc continuation token. -/
def starTok : List Char := ['*']

/-- The string-literal heuristic of `_compute_comment_lines`:
`quote_count = before.count('"') - before.count('\\"')` is odd, where
`before` is the text preceding the first block-open token. -/
def oddQuotesBefore (s : List Char) : Bool :=
  (countChar '"' (takeUntilSub openTok s) - countEscQuote (takeUntilSub openTok s)) % 2 == 1

/-- One step of `_compute_comment_lines`: given the in-block flag and a
raw line, return whether the line is classified comment and the new
in-block flag.  Mirrors the branch structure of the Python loop body. -/
def commentStep (inBlock : Bool) (line : List Char) : Bool × Bool :=
  let s := pyStrip line
  if inBlock then
    (true, !containsSub closeTok s)
  else if startsWithL lineTok s then
    (true, false)
  else if startsWithL starTok s && !startsWithL closeTok s then
    (true, false)
  else if startsWithL openTok s then
    (true, !containsSub closeTok s)
  else if containsSub openTok s then
    if oddQuotesBefore s then
      (false, false)
    else
      (false, !containsSub closeTok s)
  else
    (false, false)

/-- The indexed loop of `_compute_comment_lines`, collecting the indices
of comment lines starting at index `i` with in-block flag `inBlock`. -/
def computeCommentAux (i : Nat) (inBlock : Bool) : List (List Char) → List Nat
  | [] => []
  | l :: rest =>
    let r := commentStep inBlock l
    if r.1 then i :: computeCommentAux (i + 1) r.2 rest
    else computeCommentAux (i + 1) r.2 rest

/-- `ScorecardChecker._compute_comment_lines`: the set (here: duplicate-free
ascending list) of zero-based indices of comment lines. -/
def computeCommentLines (lines : List (List Char)) : List Nat :=
  computeCommentAux 0 false lines

/-- The in-block flag after processing a list of lines, starting from
flag `inBlock`. -/
def inBlockAfter (inBlock : Bool) : List (List Char) → Bool
  | [] => inBlock
  | l :: rest => inBlockAfter (commentStep inBlock l).2 rest

/-- The in-block flag with which the classifier reaches line `i`. -/
def stateAt (lines : List (List Char)) (i : Nat) : Bool :=
  inBlockAfter false (lines.take i)

/-- Whether line `k` of `lines` is classified comment, computed from the
reached state. -/
def lineIsComment (inBlock : Bool) (ls : List (List Char)) (k : Nat) : Prop :=
  (commentStep (inBlockAfter inBlock (ls.take k)) (ls.getD k [])).1 = true

/-- `ScorecardChecker._effective_distance`: count of non-comment,
non-blank lines strictly between `a` and `b`, plus 1. -/
def effectiveDistance (a b : Nat) (lines : List (List Char)) (commentLines : List Nat) : Nat :=
  let lo := if a < b then a else b
  let hi := if a < b then b else a
  ((List.range' (lo + 1) (hi - (lo + 1))).filter
    (fun i => !(commentLines.contains i) && !(pyStrip (lines.getD i [])).isEmpty)).length + 1

/-- `abs(c - bean_idx)` on naturals. -/
def natDist (a b : Nat) : Nat := if a < b then b - a else a - b

/-- The head of Python
`sorted(candidates, key=lambda c: abs(c - bean_idx))`: the first element
of the (ascending) candidate list attaining the minimal raw distance to
`bean` (Python's sort is stable, so ties keep list order). -/
def minByDist (bean : Nat) : List Nat → Option Nat
  | [] => none
  | c :: cs =>
    match minByDist bean cs with
    | none => some c
    | some m => if natDist c bean ≤ natDist m bean then some c else some m

/-- The qualifying candidates for one requirement marker: satisfies
markers not yet used whose effective distance is at most 5 (the
generator inside the `sorted(...)` call). -/
def candidatesFor (lines : List (List Char)) (commentLines : List Nat)
    (combIndices used : List Nat) (bean : Nat) : List Nat :=
  combIndices.filter
    (fun c => !(used.contains c) &&
      effectiveDistance c bean lines commentLines ≤ 5)

/-- The greedy pairing loop of `check_conditional_on_missing_bean`:
process the requirement (`@Bean`) indices in order; for each, filter the
satisfies (`@ConditionalOnMissingBean`) indices to those not yet used
with effective distance ≤ 5, consume the one of minimal raw distance,
or record the requirement as unmatched (`none`). -/
def pairAux (lines : List (List Char)) (commentLines : List Nat)
    (combIndices : List Nat) (used : List Nat) : List Nat → List (Nat × Option Nat)
  | [] => []
  | bean :: beans =>
    match minByDist bean (candidatesFor lines commentLines combIndices used bean) with
    | some c => (bean, some c) :: pairAux lines commentLines combIndices (c :: used) beans
    | none => (bean, none) :: pairAux lines commentLines combIndices used beans

/-- Entry point of the pairer: no satisfies marker used initially. -/
def pairBeans (lines : List (List Char)) (commentLines : List Nat)
    (beanIndices combIndices : List Nat) : List (Nat × Option Nat) :=
  pairAux lines commentLines combIndices [] beanIndices

/-- The satisfies-marker indices consumed by a pairing result. -/
def partners (ps : List (Nat × Option Nat)) : List Nat :=
  ps.filterMap Prod.snd

/-- Python `re.match(r"^\s*@Bean", line)`: optional leading whitespace
then the literal `@Bean`. -/
def beanMatch (line : List Char) : Bool :=
  startsWithL ['@', 'B', 'e', 'a', 'n'] (line.dropWhile Char.isWhitespace)

/-- Python `re.match(r"^\s*@ConditionalOnMissingBean", line)`. -/
def combMatch (line : List Char) : Bool :=
  startsWithL
    ['@', 'C', 'o', 'n', 'd', 'i', 't', 'i', 'o', 'n', 'a', 'l', 'O', 'n',
     'M', 'i', 's', 's', 'i', 'n', 'g', 'B', 'e', 'a', 'n']
    (line.dropWhile Char.isWhitespace)

/-- The requirement-marker indices of a file: non-comment lines matching
the `@Bean` pattern, in ascending order. -/
def beanIndicesOf (lines : List (List Char)) (commentLines : List Nat) : List Nat :=
  ((List.range lines.length).filter
    (fun i => !(commentLines.contains i) && beanMatch (lines.getD i [])))

/-- The satisfies-marker indices of a file: non-comment lines matching
the `@ConditionalOnMissingBean` pattern, in ascending order. -/
def combIndicesOf (lines : List (List Char)) (commentLines : List Nat) : List Nat :=
  ((List.range lines.length).filter
    (fun i => !(commentLines.contains i) && combMatch (lines.getD i [])))

/-- Per-file statistics of `check_conditional_on_missing_bean`: the
number of requirement markers and the unmatched requirement markers. -/
def fileBeanStats (lines : List (List Char)) : Nat × List Nat :=
  let commentLines := computeCommentLines lines
  let beans := beanIndicesOf lines commentLines
  let combs := combIndicesOf lines commentLines
  let result := pairBeans lines commentLines beans combs
  (beans.length, (result.filter (fun p => p.2 == none)).map Prod.fst)

/-- The pass/fail verdict of `check_conditional_on_missing_bean` over the
scanned files: `total_beans > 0 and len(beans_without_comb) == 0`. -/
def combCheckPassed (files : List (List (List Char))) : Bool :=
  let totalBeans := (files.map (fun f => (fileBeanStats f).1)).sum
  let unmatched := (files.map (fun f => (fileBeanStats f).2.length)).sum
  decide (0 < totalBeans) && decide (unmatched = 0)

/-- `ScorecardChecker._is_forbidden_import`: the allow list is consulted
first and short-circuits; otherwise the deny list decides. -/
def isForbiddenImport (allowedImports forbiddenImports : List (List Char))
    (importPath : List Char) : Bool :=
  if allowedImports.any (fun a => startsWithL a importPath) then false
  else forbiddenImports.any (fun f => startsWithL f importPath)

/-- The `import static` handling of `check_core_isolation`: a leading
`static ` qualifier is stripped before the forbidden test. -/
def stripStatic (s : List Char) : List Char :=
  if startsWithL ['s', 't', 'a', 't', 'i', 'c', ' '] s then s.drop 7 else s

/-- `CheckResult`: one scorecard dimension's outcome.  Weights are
Python floats holding exact decimal fractions; modelled as rationals. -/
structure CheckResult where
  dimension : String
  passed : Bool
  detail : String
  weight : ℚ
  phase : Nat
  label : String

/-- `PhaseResult.score`: weighted percentage of passing checks,
defined as 0 when the total weight is 0. -/
def phaseScore (checks : List CheckResult) : ℚ :=
  let totalWeight := (checks.map (fun c => c.weight)).sum
  if totalWeight = 0 then 0
  else
    let passedWeight := ((checks.filter (fun c => c.passed)).map (fun c => c.weight)).sum
    passedWeight / totalWeight * 100

/-- `VerifyResult.overall_score`: the same weighted percentage over the
checks of all phases. -/
def overallScore (phases : List (List CheckResult)) : ℚ :=
  let totalWeight := ((phases.map (fun p => (p.map (fun c => c.weight)).sum))).sum
  if totalWeight = 0 then 0
  else
    let passedWeight :=
      ((phases.map (fun p => ((p.filter (fun c => c.passed)).map (fun c => c.weight)).sum))).sum
    passedWeight / totalWeight * 100

/-- The `PHASES` table: phase number, name, weight. -/
def PHASES : List (Nat × String × ℚ) :=
  [(1, "Foundation", 25 / 100),
   (2, "Core Domain", 35 / 100),
   (3, "Adapters", 15 / 100),
   (4, "Auto-configuration", 20 / 100),
   (5, "Frontend", 5 / 100)]

/-- The `DIMENSIONS` table: dimension key, owning phase, weight. -/
def DIMENSIONS : List (String × Nat × ℚ) :=
  [("package_structure", 1, 10 / 100),
   ("modulith_marker", 1, 10 / 100),
   ("ci_pipeline", 1, 5 / 100),
   ("core_isolation", 2, 15 / 100),
   ("port_interfaces", 2, 10 / 100),
   ("domain_test_coverage", 2, 10 / 100),
   ("bridge_configs", 3, 5 / 100),
   ("adapter_integration_tests", 3, 10 / 100),
   ("conditional_on_missing_bean", 4, 5 / 100),
   ("feature_flags_default", 4, 5 / 100),
   ("auto_config_meta_inf", 4, 5 / 100),
   ("context_runner_tests", 4, 5 / 100),
   ("angular_standalone_onpush", 5, 5 / 100)]

/-- `ScorecardChecker.run_phase`, with the per-dimension evaluators
abstracted as a function from dimension key to `CheckResult` (the
Python method dispatch `getattr(self, f"check_{dim_key}")()`).  An
unrecognized phase number raises `ValueError`, modelled as `.error`. -/
def runPhase (evalDim : String → CheckResult) (phaseNum : Nat) :
    Except String (List CheckResult) :=
  if (PHASES.map (fun p => p.1)).contains phaseNum then
    Except.ok (((DIMENSIONS.filter (fun d => d.2.1 == phaseNum)).map
      (fun d => evalDim d.1)))
  else
    Except.error ("Invalid phase: must be one of the declared phases.")

/-- The evaluator method names defined on `ScorecardChecker` in the
source (one `check_<key>` per declared dimension). -/
def checkerMethods : List String :=
  ["check_package_structure", "check_modulith_marker", "check_ci_pipeline",
   "check_core_isolation", "check_port_interfaces", "check_domain_test_coverage",
   "check_bridge_configs", "check_adapter_integration_tests",
   "check_conditional_on_missing_bean", "check_feature_flags_default",
   "check_auto_config_meta_inf", "check_context_runner_tests",
   "check_angular_standalone_onpush"]

/-- `_validate_dimension_methods`: raise `AttributeError` (modelled as
`.error`) on the first dimension key with no `check_<key>` method. -/
def validateDimensionMethods (dims : List String) (methods : List String) :
    Except String Unit :=
  match dims with
  | [] => Except.ok ()
  | d :: rest =>
    if methods.contains ("check_" ++ d) then validateDimensionMethods rest methods
    else Except.error ("DIMENSIONS key " ++ d ++ " has no matching checker method.")

/-- `ScorecardChecker.__init__`: validation runs first; only when it
succeeds is a checker value produced (so no check can be evaluated and
no file scanned before the validation has passed). -/
def mkChecker (dims : List String) (methods : List String) :
    Except String (List String) :=
  match validateDimensionMethods dims methods with
  | Except.ok () => Except.ok dims
  | Except.error e => Except.error e

/-- A concrete passing check, used to instantiate witnesses. -/
def sampleCheck : CheckResult :=
  { dimension := "core_isolation", passed := true, detail := "ok",
    weight := 1, phase := 2, label := "Core isolation" }

/-- A concrete file: `int x; /*` (code before an unterminated block-open),
then a plain line, a close line, and more code. -/
def exC2 : List (List Char) :=
  [['i', 'n', 't', ' ', 'x', ';', ' ', '/', '*'], ['y'], ['*', '/'], ['z']]

/-- A concrete file whose first line holds `/*` inside a string literal:
`x="/*";`. -/
def exC3 : List (List Char) :=
  [['x', '=', '"', '/', '*', '"', ';'], ['y']]

/-- A concrete file opening a block comment that is never closed. -/
def exC10 : List (List Char) :=
  [['/', '*'], ['a'], ['b']]

/-- A line holding a requirement marker `@Bean`. -/
def beanLine : List Char := ['@', 'B', 'e', 'a', 'n']

/-- A line holding a satisfies marker `@ConditionalOnMissingBean`. -/
def combLine : List Char :=
  ['@', 'C', 'o', 'n', 'd', 'i', 't', 'i', 'o', 'n', 'a', 'l', 'O', 'n',
   'M', 'i', 's', 's', 'i', 'n', 'g', 'B', 'e', 'a', 'n']

/-- A non-blank, non-comment code line. -/
def codeLine : List Char := ['x', ';']

/-- Scenario file: 6 non-comment, non-blank lines strictly between the
requirement and the satisfies marker. -/
def fileSixBetween : List (List Char) :=
  [beanLine, codeLine, codeLine, codeLine, codeLine, codeLine, codeLine, combLine]

/-- Scenario file: 4 non-comment, non-blank lines strictly between the
requirement and the satisfies marker. -/
def fileFourBetween : List (List Char) :=
  [beanLine, codeLine, codeLine, codeLine, codeLine, combLine]

/-! ## Helper lemmas -/

theorem sum_map_join (f : CheckResult → ℚ) (phases : List (List CheckResult)) :
    ((phases.map (fun p => (p.map f).sum)).sum : ℚ) = (phases.flatten.map f).sum := by
  induction phases with
  | nil => simp
  | cons p rest ih => simp [ih]

theorem sum_filter_map_join (f : CheckResult → ℚ) (q : CheckResult → Bool)
    (phases : List (List CheckResult)) :
    ((phases.map (fun p => ((p.filter q).map f).sum)).sum : ℚ) =
      ((phases.flatten.filter q).map f).sum := by
  induction phases with
  | nil => simp
  | cons p rest ih => simp [ih]

theorem validate_error_of_missing (dims methods : List String)
    (h : ∃ d ∈ dims, methods.contains ("check_" ++ d) = false) :
    ∃ msg, validateDimensionMethods dims methods = Except.error msg := by
  induction dims with
  | nil => simp at h
  | cons d rest ih =>
    by_cases hm : ("check_" ++ d) ∈ methods
    · rcases h with ⟨d', hd', hnc⟩
      rcases List.mem_cons.mp hd' with rfl | hd'
      · have : methods.contains ("check_" ++ d') = true := by simpa using hm
        rw [this] at hnc; cases hnc
      · rcases ih ⟨d', hd', hnc⟩ with ⟨msg, hmsg⟩
        exact ⟨msg, by simp [validateDimensionMethods, hm, hmsg]⟩
    · exact ⟨"DIMENSIONS key " ++ d ++ " has no matching checker method.",
        by simp [validateDimensionMethods, hm]⟩

/-! ## Claim theorems -/

/-- C4: `_effective_distance` is symmetric in its two line indices, equals
1 on identical indices, and equals 1 on adjacent indices (where no line
lies strictly between). -/
theorem effective_distance_symm_one (a b : Nat) (lines : List (List Char))
    (commentLines : List Nat) :
    effectiveDistance a b lines commentLines = effectiveDistance b a lines commentLines ∧
    effectiveDistance a a lines commentLines = 1 ∧
    effectiveDistance a (a + 1) lines commentLines = 1 := by
  refine ⟨?_, ?_, ?_⟩
  · unfold effectiveDistance
    rcases Nat.lt_trichotomy a b with h | h | h
    · simp [h, Nat.lt_asymm h]
    · subst h; simp
    · simp [h, Nat.lt_asymm h]
  · unfold effectiveDistance
    simp [Nat.lt_irrefl, Nat.sub_eq_zero_of_le (Nat.le_succ a)]
  · unfold effectiveDistance
    simp [Nat.lt_succ_self, Nat.sub_self]

/-- C6: after stripping a leading `static ` qualifier, an import name is a
violation iff it starts with a deny-list prefix and with no allow-list
prefix (the allow list short-circuits first); with deny prefix
`pkg.persistence` and allow prefix `pkg.persistence.safe`, the import
`pkg.persistence.safe.Foo` is allowed and `pkg.persistence.Entity` is a
violation. -/
theorem forbidden_import_allow_over_deny
    (allowedImports forbiddenImports : List (List Char)) (name : List Char) :
    (isForbiddenImport allowedImports forbiddenImports (stripStatic name) = true ↔
      ((∃ f ∈ forbiddenImports, startsWithL f (stripStatic name) = true) ∧
        ¬ ∃ a ∈ allowedImports, startsWithL a (stripStatic name) = true)) ∧
    isForbiddenImport ["pkg.persistence.safe".toList] ["pkg.persistence".toList]
      "pkg.persistence.safe.Foo".toList = false ∧
    isForbiddenImport ["pkg.persistence.safe".toList] ["pkg.persistence".toList]
      "pkg.persistence.Entity".toList = true := by
  refine ⟨?_, by decide, by decide⟩
  unfold isForbiddenImport
  by_cases h : allowedImports.any (fun a => startsWithL a (stripStatic name)) = true
  · rw [if_pos h]
    have h' : ∃ a ∈ allowedImports, startsWithL a (stripStatic name) = true := by
      simpa using h
    constructor
    · intro hfalse; cases hfalse
    · rintro ⟨_, hno⟩; exact absurd h' hno
  · rw [if_neg h]
    have h' : ¬ ∃ a ∈ allowedImports, startsWithL a (stripStatic name) = true := by
      simpa using h
    constructor
    · intro hf; exact ⟨by simpa using hf, h'⟩
    · rintro ⟨hf, _⟩; simpa using hf

/-- C7: phase and overall scores are the weighted percentage of passing
checks — (sum of passing weights) / (sum of all weights) × 100 — and are
exactly 0 when the total weight in scope is 0 (never a division error;
the functions are total). -/
theorem weighted_score_formula (checks : List CheckResult)
    (phases : List (List CheckResult)) :
    ((checks.map (fun c => c.weight)).sum = 0 → phaseScore checks = 0) ∧
    ((checks.map (fun c => c.weight)).sum ≠ 0 →
      phaseScore checks =
        ((checks.filter (fun c => c.passed)).map (fun c => c.weight)).sum /
          (checks.map (fun c => c.weight)).sum * 100) ∧
    ((phases.flatten.map (fun c => c.weight)).sum = 0 → overallScore phases = 0) ∧
    ((phases.flatten.map (fun c => c.weight)).sum ≠ 0 →
      overallScore phases =
        ((phases.flatten.filter (fun c => c.passed)).map (fun c => c.weight)).sum /
          (phases.flatten.map (fun c => c.weight)).sum * 100) := by
  refine ⟨?_, ?_, ?_, ?_⟩
  · intro h; simp only [phaseScore]; rw [if_pos h]
  · intro h; simp only [phaseScore]; rw [if_neg h]
  · intro h
    simp only [overallScore]
    rw [sum_map_join, if_pos h]
  · intro h
    simp only [overallScore]
    rw [sum_map_join, sum_filter_map_join, if_neg h]

/-- C8: requesting a single-phase run for a phase number outside the
declared phases 1–5 yields the configuration error, never a result
list. -/
theorem run_phase_invalid_phase_error (evalDim : String → CheckResult)
    (phaseNum : Nat) (h : phaseNum ∉ ([1, 2, 3, 4, 5] : List Nat)) :
    runPhase evalDim phaseNum =
      Except.error "Invalid phase: must be one of the declared phases." ∧
    ∀ checks, runPhase evalDim phaseNum ≠ Except.ok checks := by
  have hc : (PHASES.map (fun p => p.1)).contains phaseNum = false := by
    simpa [PHASES] using h
  refine ⟨?_, ?_⟩
  · unfold runPhase
    rw [hc]
    simp
  · intro checks
    unfold runPhase
    rw [hc]
    simp

/-- C9: if some declared dimension key has no matching `check_<key>`
evaluator method, constructing the checker yields an error (the
validation runs inside the constructor, before any check can be
evaluated or any file scanned). -/
theorem missing_evaluator_fails_fast (dims methods : List String)
    (h : ∃ d ∈ dims, methods.contains ("check_" ++ d) = false) :
    ∃ msg, mkChecker dims methods = Except.error msg := by
  rcases validate_error_of_missing dims methods h with ⟨msg, hmsg⟩
  exact ⟨msg, by simp [mkChecker, hmsg]⟩

/-- Witness for C7 at concrete inputs. -/
theorem weighted_score_formula_witness :
    phaseScore [] = 0 ∧ phaseScore [sampleCheck] = 100 ∧
    overallScore [] = 0 ∧ overallScore [[sampleCheck]] = 100 := by
  refine ⟨(weighted_score_formula [] []).1 (by simp), ?_,
          ((weighted_score_formula [] []).2.2).1 (by simp), ?_⟩
  · have h := (weighted_score_formula [sampleCheck] []).2.1 (by norm_num [sampleCheck])
    rw [h]
    norm_num [sampleCheck]
  · have h := ((weighted_score_formula [] [[sampleCheck]]).2.2).2 (by norm_num [sampleCheck])
    rw [h]
    norm_num [sampleCheck]

/-- Witness for C8 at phase number 7. -/
theorem run_phase_invalid_phase_error_witness :
    runPhase (fun _ => sampleCheck) 7 =
      Except.error "Invalid phase: must be one of the declared phases." :=
  (run_phase_invalid_phase_error (fun _ => sampleCheck) 7 (by decide)).1

/-- Witness for C9 at a concrete misspelled dimension key. -/
theorem missing_evaluator_fails_fast_witness :
    ∃ msg, mkChecker ["no_such_dimension"] checkerMethods = Except.error msg :=
  missing_evaluator_fails_fast ["no_such_dimension"] checkerMethods (by decide)

theorem inBlockAfter_append (b : Bool) (xs ys : List (List Char)) :
    inBlockAfter b (xs ++ ys) = inBlockAfter (inBlockAfter b xs) ys := by
  induction xs generalizing b with
  | nil => rfl
  | cons x xs ih => simpa [inBlockAfter] using ih (commentStep b x).2

theorem computeCommentAux_cons (i : Nat) (b : Bool) (l : List Char)
    (rest : List (List Char)) :
    computeCommentAux i b (l :: rest) =
      if (commentStep b l).1 then
        i :: computeCommentAux (i + 1) (commentStep b l).2 rest
      else computeCommentAux (i + 1) (commentStep b l).2 rest := rfl

theorem mem_computeCommentAux (ls : List (List Char)) : ∀ (i j : Nat) (b : Bool),
    j ∈ computeCommentAux i b ls ↔
      ∃ k, k < ls.length ∧ j = i + k ∧ lineIsComment b ls k := by
  induction ls with
  | nil => intro i j b; simp [computeCommentAux]
  | cons l rest ih =>
    intro i j b
    have hR : (∃ k, k < (l :: rest).length ∧ j = i + k ∧ lineIsComment b (l :: rest) k) ↔
        ((j = i ∧ (commentStep b l).1 = true) ∨
          (∃ k, k < rest.length ∧ j = (i + 1) + k ∧
            lineIsComment (commentStep b l).2 rest k)) := by
      constructor
      · rintro ⟨k, hk, rfl, hlc⟩
        cases k with
        | zero => exact Or.inl ⟨by omega, hlc⟩
        | succ k' => exact Or.inr ⟨k', by simpa using hk, by omega, hlc⟩
      · rintro (⟨rfl, hc⟩ | ⟨k', hk', rfl, hlc⟩)
        · exact ⟨0, by simp, by omega, hc⟩
        · exact ⟨k' + 1, by simpa using hk', by omega, hlc⟩
    rw [computeCommentAux_cons, hR]
    by_cases hc : (commentStep b l).1 = true
    · rw [if_pos hc]
      simp only [List.mem_cons, ih]
      constructor
      · rintro (rfl | ⟨k, hk, rfl, hlc⟩)
        · exact Or.inl ⟨rfl, hc⟩
        · exact Or.inr ⟨k, hk, rfl, hlc⟩
      · rintro (⟨rfl, _⟩ | ⟨k, hk, rfl, hlc⟩)
        · exact Or.inl rfl
        · exact Or.inr ⟨k, hk, rfl, hlc⟩
    · rw [if_neg hc]
      rw [ih]
      constructor
      · rintro ⟨k, hk, rfl, hlc⟩
        exact Or.inr ⟨k, hk, rfl, hlc⟩
      · rintro (⟨rfl, hcontra⟩ | ⟨k, hk, rfl, hlc⟩)
        · exact absurd hcontra hc
        · exact ⟨k, hk, rfl, hlc⟩

theorem mem_computeCommentLines (lines : List (List Char)) (j : Nat) :
    j ∈ computeCommentLines lines ↔
      j < lines.length ∧
        (commentStep (stateAt lines j) (lines.getD j [])).1 = true := by
  unfold computeCommentLines
  rw [mem_computeCommentAux]
  constructor
  · rintro ⟨k, hk, rfl, hlc⟩
    refine ⟨by omega, ?_⟩
    simpa [lineIsComment, stateAt] using hlc
  · rintro ⟨hj, hstep⟩
    exact ⟨j, hj, by omega, hstep⟩

theorem stateAt_succ (lines : List (List Char)) (k : Nat) (hk : k < lines.length) :
    stateAt lines (k + 1) = (commentStep (stateAt lines k) (lines.getD k [])).2 := by
  unfold stateAt
  rw [List.take_succ, inBlockAfter_append]
  have h1 : lines[k]? = some (lines.getD k []) := by
    cases hx : lines[k]? with
    | none =>
      rw [List.getElem?_eq_none_iff] at hx
      omega
    | some v =>
      have hv : lines.getD k [] = v := by
        simp [List.getD_eq_getElem?_getD, hx]
      rw [hv]
  rw [h1]
  rfl

theorem state_stays_true (lines : List (List Char)) (i : Nat) :
    ∀ j, stateAt lines (i + 1) = true → i < j → j ≤ lines.length →
      (∀ k, i < k → k < j → containsSub closeTok (pyStrip (lines.getD k [])) = false) →
      stateAt lines j = true := by
  intro j
  induction j with
  | zero => intro _ h; omega
  | succ j' ih =>
    intro hstate hij hj hnoclose
    by_cases hij' : i < j'
    · have hst' : stateAt lines j' = true :=
        ih hstate hij' (by omega) (fun k hk1 hk2 => hnoclose k hk1 (by omega))
      rw [stateAt_succ lines j' (by omega), hst']
      have hnc := hnoclose j' hij' (by omega)
      have hcs : (commentStep true (lines.getD j' [])).2
          = !containsSub closeTok (pyStrip (lines.getD j' [])) := rfl
      rw [hcs, hnc]
      rfl
    · have hji : j' = i := by omega
      subst hji
      exact hstate

theorem mem_of_state_true (lines : List (List Char)) (j : Nat)
    (hj : j < lines.length) (hs : stateAt lines j = true) :
    j ∈ computeCommentLines lines := by
  rw [mem_computeCommentLines]
  refine ⟨hj, ?_⟩
  rw [hs]
  simp [commentStep]

theorem commentStep_code_open (line : List Char)
    (h1 : startsWithL lineTok (pyStrip line) = false)
    (h2 : (startsWithL starTok (pyStrip line) && !startsWithL closeTok (pyStrip line)) = false)
    (h3 : startsWithL openTok (pyStrip line) = false)
    (h4 : containsSub openTok (pyStrip line) = true)
    (h5 : oddQuotesBefore (pyStrip line) = false) :
    commentStep false line = (false, !containsSub closeTok (pyStrip line)) := by
  revert h1 h2 h3 h4 h5
  simp only [commentStep]
  generalize pyStrip line = s
  intro h1 h2 h3 h4 h5
  rw [if_neg (by simp), if_neg (by simp [h1]), if_neg (by simp [h2]),
    if_neg (by simp [h3]), if_pos h4, if_neg (by simp [h5])]

theorem commentStep_string_open (line : List Char)
    (h1 : startsWithL lineTok (pyStrip line) = false)
    (h2 : (startsWithL starTok (pyStrip line) && !startsWithL closeTok (pyStrip line)) = false)
    (h3 : startsWithL openTok (pyStrip line) = false)
    (h4 : containsSub openTok (pyStrip line) = true)
    (h5 : oddQuotesBefore (pyStrip line) = true) :
    commentStep false line = (false, false) := by
  revert h1 h2 h3 h4 h5
  simp only [commentStep]
  generalize pyStrip line = s
  intro h1 h2 h3 h4 h5
  rw [if_neg (by simp), if_neg (by simp [h1]), if_neg (by simp [h2]),
    if_neg (by simp [h3]), if_pos h4, if_pos h5]

/-- C2: in code state, a line with real text before a block-comment-open
token (the token is not preceded by an odd number of unescaped quotes)
is not classified comment; if the open is unterminated on that line,
every following line, up to and including the first line containing the
close token, is classified comment. -/
theorem code_then_open_classification (lines : List (List Char)) (i : Nat)
    (hstate : stateAt lines i = false)
    (h1 : startsWithL lineTok (pyStrip (lines.getD i [])) = false)
    (h2 : (startsWithL starTok (pyStrip (lines.getD i [])) &&
            !startsWithL closeTok (pyStrip (lines.getD i []))) = false)
    (h3 : startsWithL openTok (pyStrip (lines.getD i [])) = false)
    (h4 : containsSub openTok (pyStrip (lines.getD i [])) = true)
    (h5 : oddQuotesBefore (pyStrip (lines.getD i [])) = false) :
    i ∉ computeCommentLines lines ∧
    (containsSub closeTok (pyStrip (lines.getD i [])) = false →
      ∀ j, i < j → j < lines.length →
        (∀ k, i < k → k < j → containsSub closeTok (pyStrip (lines.getD k [])) = false) →
        j ∈ computeCommentLines lines) := by
  have hstep : commentStep false (lines.getD i []) =
      (false, !containsSub closeTok (pyStrip (lines.getD i []))) :=
    commentStep_code_open (lines.getD i []) h1 h2 h3 h4 h5
  constructor
  · rw [mem_computeCommentLines]
    rintro ⟨hi, hc⟩
    rw [hstate, hstep] at hc
    simp at hc
  · intro hclose j hij hj hno
    have hstate1 : stateAt lines (i + 1) = true := by
      rw [stateAt_succ lines i (by omega), hstate, hstep, hclose]
      rfl
    exact mem_of_state_true lines j hj
      (state_stays_true lines i j hstate1 hij (by omega) hno)

/-- Witness for C2 on the concrete file `exC2`. -/
theorem code_then_open_classification_witness :
    0 ∉ computeCommentLines exC2 ∧ 2 ∈ computeCommentLines exC2 := by
  have h := code_then_open_classification exC2 0 (by decide) (by decide) (by decide)
    (by decide) (by decide) (by decide)
  refine ⟨h.1, h.2 (by decide) 2 (by decide) (by decide) ?_⟩
  intro k hk1 hk2
  have hk : k = 1 := by omega
  subst hk
  decide

/-- C3: in code state, a block-open token after real text that is
preceded by an odd number of unescaped quotes neither marks the line as
comment nor opens a block-comment region for subsequent lines. -/
theorem open_in_string_literal_ignored (lines : List (List Char)) (i : Nat)
    (hi : i < lines.length)
    (hstate : stateAt lines i = false)
    (h1 : startsWithL lineTok (pyStrip (lines.getD i [])) = false)
    (h2 : (startsWithL starTok (pyStrip (lines.getD i [])) &&
            !startsWithL closeTok (pyStrip (lines.getD i []))) = false)
    (h3 : startsWithL openTok (pyStrip (lines.getD i [])) = false)
    (h4 : containsSub openTok (pyStrip (lines.getD i [])) = true)
    (h5 : oddQuotesBefore (pyStrip (lines.getD i [])) = true) :
    i ∉ computeCommentLines lines ∧ stateAt lines (i + 1) = false := by
  have hstep : commentStep false (lines.getD i []) = (false, false) :=
    commentStep_string_open (lines.getD i []) h1 h2 h3 h4 h5
  constructor
  · rw [mem_computeCommentLines]
    rintro ⟨_, hc⟩
    rw [hstate, hstep] at hc
    simp at hc
  · rw [stateAt_succ lines i hi, hstate, hstep]

/-- Witness for C3 on the concrete file `exC3`. -/
theorem open_in_string_literal_ignored_witness :
    0 ∉ computeCommentLines exC3 ∧ stateAt exC3 1 = false :=
  open_in_string_literal_ignored exC3 0 (by decide) (by decide) (by decide)
    (by decide) (by decide) (by decide) (by decide)

/-- C10: once a block comment is open after some line `i` and no later
line contains the close token, every later line through the end of file
is classified comment; the classifier is a total function and returns
the empty set on the empty input. -/
theorem unterminated_block_comment_to_eof :
    (∀ (lines : List (List Char)) (i : Nat),
      stateAt lines (i + 1) = true →
      (∀ k, i < k → k < lines.length →
        containsSub closeTok (pyStrip (lines.getD k [])) = false) →
      ∀ j, i < j → j < lines.length → j ∈ computeCommentLines lines) ∧
    computeCommentLines [] = [] := by
  constructor
  · intro lines i hstate hno j hij hj
    exact mem_of_state_true lines j hj
      (state_stays_true lines i j hstate hij (by omega)
        (fun k hk1 hk2 => hno k hk1 (by omega)))
  · rfl

/-- Witness for C10 on the concrete file `exC10`. -/
theorem unterminated_block_comment_to_eof_witness :
    2 ∈ computeCommentLines exC10 := by
  refine unterminated_block_comment_to_eof.1 exC10 0 (by decide) ?_ 2 (by decide) (by decide)
  intro k hk1 hk2
  have hlen : exC10.length = 3 := rfl
  rw [hlen] at hk2
  have hk : k = 1 ∨ k = 2 := by omega
  rcases hk with rfl | rfl <;> decide

theorem minByDist_none_iff (bean : Nat) (l : List Nat) :
    minByDist bean l = none ↔ l = [] := by
  cases l with
  | nil => simp [minByDist]
  | cons c cs =>
    simp only [minByDist]
    constructor
    · intro h
      cases hm : minByDist bean cs with
      | none => rw [hm] at h; simp at h
      | some m =>
        rw [hm] at h
        by_cases hle : natDist c bean ≤ natDist m bean
        · simp [hle] at h
        · simp [hle] at h
    · intro h; simp at h

theorem minByDist_mem (bean : Nat) : ∀ (l : List Nat) (m : Nat),
    minByDist bean l = some m → m ∈ l := by
  intro l
  induction l with
  | nil => intro m h; cases h
  | cons c cs ih =>
    intro m h
    simp only [minByDist] at h
    cases hm : minByDist bean cs with
    | none =>
      rw [hm] at h
      simp at h
      rw [← h]
      exact List.mem_cons_self c cs
    | some m' =>
      rw [hm] at h
      by_cases hle : natDist c bean ≤ natDist m' bean
      · simp [hle] at h
        rw [← h]
        exact List.mem_cons_self c cs
      · simp [hle] at h
        exact List.mem_cons_of_mem c (h ▸ ih m' hm)

theorem minByDist_le (bean : Nat) : ∀ (l : List Nat) (m : Nat),
    minByDist bean l = some m → ∀ x ∈ l, natDist m bean ≤ natDist x bean := by
  intro l
  induction l with
  | nil => intro m h; cases h
  | cons c cs ih =>
    intro m h x hx
    simp only [minByDist] at h
    cases hm : minByDist bean cs with
    | none =>
      have hcs : cs = [] := (minByDist_none_iff bean cs).mp hm
      rw [hm] at h
      simp at h
      subst hcs
      rcases List.mem_cons.mp hx with rfl | hx'
      · rw [← h]
      · simp at hx'
    | some m' =>
      rw [hm] at h
      rcases List.mem_cons.mp hx with rfl | hx'
      · by_cases hle : natDist x bean ≤ natDist m' bean
        · simp [hle] at h
          rw [← h]
        · simp [hle] at h
          rw [← h]
          exact Nat.le_of_lt (Nat.lt_of_not_le hle)
      · by_cases hle : natDist c bean ≤ natDist m' bean
        · simp [hle] at h
          rw [← h]
          exact Nat.le_trans hle (ih m' hm x hx')
        · simp [hle] at h
          rw [← h]
          exact ih m' hm x hx'

theorem pairAux_cons (lines : List (List Char)) (cs combs used : List Nat)
    (bean : Nat) (rest : List Nat) :
    pairAux lines cs combs used (bean :: rest) =
      match minByDist bean (candidatesFor lines cs combs used bean) with
      | some c => (bean, some c) :: pairAux lines cs combs (c :: used) rest
      | none => (bean, none) :: pairAux lines cs combs used rest := rfl

theorem mem_candidatesFor (lines : List (List Char)) (cs combs used : List Nat)
    (bean c : Nat) :
    c ∈ candidatesFor lines cs combs used bean ↔
      c ∈ combs ∧ c ∉ used ∧ effectiveDistance c bean lines cs ≤ 5 := by
  simp [candidatesFor, List.mem_filter, and_assoc]

theorem pairAux_map_fst (lines : List (List Char)) (cs combs : List Nat) :
    ∀ (beans used : List Nat),
      (pairAux lines cs combs used beans).map Prod.fst = beans := by
  intro beans
  induction beans with
  | nil => intro used; rfl
  | cons bean rest ih =>
    intro used
    rw [pairAux_cons]
    cases hm : minByDist bean (candidatesFor lines cs combs used bean) with
    | some c => simp [ih]
    | none => simp [ih]

theorem pairAux_partners_sound (lines : List (List Char)) (cs combs : List Nat) :
    ∀ (beans used : List Nat) (c : Nat),
      c ∈ partners (pairAux lines cs combs used beans) →
      c ∈ combs ∧ c ∉ used := by
  intro beans
  induction beans with
  | nil => intro used c h; simp [pairAux, partners] at h
  | cons bean rest ih =>
    intro used c h
    rw [pairAux_cons] at h
    cases hm : minByDist bean (candidatesFor lines cs combs used bean) with
    | some c₀ =>
      rw [hm] at h
      simp only [partners, List.filterMap_cons] at h
      rcases List.mem_cons.mp h with rfl | h'
      · have := (mem_candidatesFor lines cs combs used bean c).mp
          (minByDist_mem bean _ c hm)
        exact ⟨this.1, this.2.1⟩
      · have := ih (c₀ :: used) c h'
        exact ⟨this.1, fun hc => this.2 (List.mem_cons_of_mem c₀ hc)⟩
    | none =>
      rw [hm] at h
      simp only [partners, List.filterMap_cons] at h
      exact ih used c h

theorem pairAux_partners_nodup (lines : List (List Char)) (cs combs : List Nat) :
    ∀ (beans used : List Nat),
      (partners (pairAux lines cs combs used beans)).Nodup := by
  intro beans
  induction beans with
  | nil => intro used; simp [pairAux, partners]
  | cons bean rest ih =>
    intro used
    rw [pairAux_cons]
    cases hm : minByDist bean (candidatesFor lines cs combs used bean) with
    | some c₀ =>
      simp only [partners, List.filterMap_cons]
      refine List.nodup_cons.mpr ⟨?_, ih (c₀ :: used)⟩
      intro hc
      exact (pairAux_partners_sound lines cs combs rest (c₀ :: used) c₀ hc).2
        (List.mem_cons_self c₀ used)
    | none =>
      simp only [partners, List.filterMap_cons]
      exact ih used

theorem pairAux_matched_sound (lines : List (List Char)) (cs combs : List Nat) :
    ∀ (beans used : List Nat) (b c : Nat),
      (b, some c) ∈ pairAux lines cs combs used beans →
      c ∈ combs ∧ c ∉ used ∧ effectiveDistance c b lines cs ≤ 5 := by
  intro beans
  induction beans with
  | nil => intro used b c h; simp [pairAux] at h
  | cons bean rest ih =>
    intro used b c h
    rw [pairAux_cons] at h
    cases hm : minByDist bean (candidatesFor lines cs combs used bean) with
    | some c₀ =>
      rw [hm] at h
      rcases List.mem_cons.mp h with heq | h'
      · have h1 : b = bean := congrArg Prod.fst heq
        have h2 : c = c₀ := by
          have := congrArg Prod.snd heq
          simpa using this
        subst h1; subst h2
        exact (mem_candidatesFor lines cs combs used b c).mp
          (minByDist_mem b _ c hm)
      · have := ih (c₀ :: used) b c h'
        exact ⟨this.1, fun hc => this.2.1 (List.mem_cons_of_mem c₀ hc), this.2.2⟩
    | none =>
      rw [hm] at h
      rcases List.mem_cons.mp h with heq | h'
      · have := congrArg Prod.snd heq
        simp at this
      · exact ih used b c h'

theorem pairAux_unmatched_sound (lines : List (List Char)) (cs combs : List Nat) :
    ∀ (beans used : List Nat) (b : Nat),
      (b, none) ∈ pairAux lines cs combs used beans →
      ∀ c ∈ combs, effectiveDistance c b lines cs ≤ 5 →
        c ∈ used ∨ c ∈ partners (pairAux lines cs combs used beans) := by
  intro beans
  induction beans with
  | nil => intro used b h; simp [pairAux] at h
  | cons bean rest ih =>
    intro used b h c hc hdist
    rw [pairAux_cons] at h ⊢
    cases hm : minByDist bean (candidatesFor lines cs combs used bean) with
    | some c₀ =>
      rw [hm] at h
      simp only [partners, List.filterMap_cons]
      rcases List.mem_cons.mp h with heq | h'
      · have := congrArg Prod.snd heq
        simp at this
      · rcases ih (c₀ :: used) b h' c hc hdist with hu | hp
        · rcases List.mem_cons.mp hu with rfl | hu'
          · exact Or.inr (List.mem_cons_self c _)
          · exact Or.inl hu'
        · exact Or.inr (List.mem_cons_of_mem c₀ hp)
    | none =>
      rw [hm] at h
      simp only [partners, List.filterMap_cons]
      rcases List.mem_cons.mp h with heq | h'
      · have hb : b = bean := congrArg Prod.fst heq
        subst hb
        have hnil : candidatesFor lines cs combs used b = [] :=
          (minByDist_none_iff b _).mp hm
        have : c ∉ candidatesFor lines cs combs used b := by
          rw [hnil]; simp
        rw [mem_candidatesFor] at this
        push_neg at this
        refine Or.inl (not_not.mp (fun hcu => ?_))
        have h5 := this hc hcu
        omega
      · exact ih used b h' c hc hdist

theorem pairAux_greedy (lines : List (List Char)) (cs combs : List Nat) :
    ∀ (beans used : List Nat) (pre : List (Nat × Option Nat)) (b c : Nat)
      (post : List (Nat × Option Nat)),
      pairAux lines cs combs used beans = pre ++ (b, some c) :: post →
      ∀ x ∈ combs, x ∉ used → x ∉ partners pre →
        effectiveDistance x b lines cs ≤ 5 →
        natDist c b ≤ natDist x b := by
  intro beans
  induction beans with
  | nil =>
    intro used pre b c post h
    have : ((pre ++ (b, some c) :: post)).length = 0 := by
      rw [← h]; rfl
    simp at this
  | cons bean rest ih =>
    intro used pre b c post h x hx hxu hxp hxd
    rw [pairAux_cons] at h
    cases hm : minByDist bean (candidatesFor lines cs combs used bean) with
    | some c₀ =>
      rw [hm] at h
      cases pre with
      | nil =>
        simp only [List.nil_append] at h
        have hb : bean = b := congrArg Prod.fst (List.head_eq_of_cons_eq h)
        have hc : c₀ = c := by
          have := congrArg Prod.snd (List.head_eq_of_cons_eq h)
          simpa using this
        subst hb; subst hc
        refine minByDist_le bean _ c₀ hm x ?_
        rw [mem_candidatesFor]
        exact ⟨hx, hxu, hxd⟩
      | cons p pre' =>
        have hp : p = (bean, some c₀) := (List.head_eq_of_cons_eq h.symm)
        have htail : pairAux lines cs combs (c₀ :: used) rest =
            pre' ++ (b, some c) :: post := (List.tail_eq_of_cons_eq h.symm).symm
        have hpart : partners (p :: pre') = c₀ :: partners pre' := by
          rw [hp]; simp [partners]
        have hxp2 : x ∉ c₀ :: partners pre' := by rw [← hpart]; exact hxp
        have hxp' : x ∉ partners pre' :=
          fun hmem => hxp2 (List.mem_cons_of_mem c₀ hmem)
        have hxu' : x ∉ c₀ :: used := by
          intro hmem
          rcases List.mem_cons.mp hmem with rfl | hmem'
          · exact hxp2 (List.mem_cons_self x _)
          · exact hxu hmem'
        exact ih (c₀ :: used) pre' b c post htail x hx hxu' hxp' hxd
    | none =>
      rw [hm] at h
      cases pre with
      | nil =>
        simp only [List.nil_append] at h
        have := congrArg Prod.snd (List.head_eq_of_cons_eq h)
        simp at this
      | cons p pre' =>
        have hp : p = (bean, none) := (List.head_eq_of_cons_eq h.symm)
        have htail : pairAux lines cs combs used rest =
            pre' ++ (b, some c) :: post := (List.tail_eq_of_cons_eq h.symm).symm
        have hpart : partners (p :: pre') = partners pre' := by
          rw [hp]; simp [partners]
        have hxp' : x ∉ partners pre' := by rw [← hpart]; exact hxp
        exact ih used pre' b c post htail x hx hxu hxp' hxd

/-- C1: the greedy pairing processes requirement markers in list order
(the output lists them exactly, in order); no satisfies marker is
consumed twice; every matched pair uses a listed satisfies marker within
effective distance 5; an unmatched requirement marker means every
qualifying satisfies marker was consumed by some requirement marker; and
each match has minimal raw line-index distance among the qualifying
satisfies markers not consumed earlier. -/
theorem pairing_bijective_greedy (lines : List (List Char))
    (cs beans combs : List Nat) :
    ((pairBeans lines cs beans combs).map Prod.fst = beans) ∧
    (partners (pairBeans lines cs beans combs)).Nodup ∧
    (∀ b c, (b, some c) ∈ pairBeans lines cs beans combs →
      c ∈ combs ∧ effectiveDistance c b lines cs ≤ 5) ∧
    (∀ b, (b, none) ∈ pairBeans lines cs beans combs →
      ∀ c ∈ combs, effectiveDistance c b lines cs ≤ 5 →
        c ∈ partners (pairBeans lines cs beans combs)) ∧
    (∀ (pre : List (Nat × Option Nat)) (b c : Nat)
        (post : List (Nat × Option Nat)),
      pairBeans lines cs beans combs = pre ++ (b, some c) :: post →
      ∀ x ∈ combs, x ∉ partners pre →
        effectiveDistance x b lines cs ≤ 5 →
        natDist c b ≤ natDist x b) := by
  refine ⟨pairAux_map_fst lines cs combs beans [],
          pairAux_partners_nodup lines cs combs beans [],
          ?_, ?_, ?_⟩
  · intro b c h
    have := pairAux_matched_sound lines cs combs beans [] b c h
    exact ⟨this.1, this.2.2⟩
  · intro b h c hc hdist
    rcases pairAux_unmatched_sound lines cs combs beans [] b h c hc hdist with hu | hp
    · simp at hu
    · exact hp
  · intro pre b c post h x hx hxp hxd
    exact pairAux_greedy lines cs combs beans [] pre b c post h x hx (by simp) hxp hxd

/-- Witness for C1 at concrete inputs: one requirement marker at index 0,
one satisfies marker at index 1, empty file text. -/
theorem pairing_bijective_greedy_witness :
    ((1 : Nat) ∈ [1] ∧ effectiveDistance 1 0 [] [] ≤ 5) ∧ natDist 1 0 ≤ natDist 1 0 := by
  have h := pairing_bijective_greedy [] [] [0] [1]
  refine ⟨h.2.2.1 0 1 (by decide), ?_⟩
  exact h.2.2.2.2 [] 0 1 [] (by decide) 1 (by decide) (by decide) (by decide)

/-- C5: the guarded-bean check passes iff at least one requirement marker
was found and none is unmatched; with 6 non-comment, non-blank lines
strictly between the markers the effective distance is 7 and the
requirement is unmatched (check fails); with 4 such lines the distance
is 5 and the pairing succeeds (check passes). -/
theorem guarded_bean_check_pass_iff (files : List (List (List Char))) :
    (combCheckPassed files = true ↔
      0 < (files.map (fun f => (fileBeanStats f).1)).sum ∧
      (files.map (fun f => (fileBeanStats f).2.length)).sum = 0) ∧
    effectiveDistance 0 7 fileSixBetween (computeCommentLines fileSixBetween) = 7 ∧
    (fileBeanStats fileSixBetween).2 = [0] ∧
    combCheckPassed [fileSixBetween] = false ∧
    effectiveDistance 0 5 fileFourBetween (computeCommentLines fileFourBetween) = 5 ∧
    (fileBeanStats fileFourBetween).2 = [] ∧
    combCheckPassed [fileFourBetween] = true := by
  refine ⟨?_, by decide, by decide, by decide, by decide, by decide, by decide⟩
  unfold combCheckPassed
  simp

end MigrationCli
